import Mathlib

/-!
Verification development for the voicerag-realtime-aisearch browser client.

The definitions below are a shallow embedding of the TypeScript front end:
pure functions become Lean functions, React state updates become explicit
state passing, `fetch` outcomes become an explicit oracle argument, and
thrown/caught JavaScript exceptions become `Option`/`Except` values.  Machine
numbers that matter (telemetry durations) are modelled as rationals; string
operations mirror the JavaScript semantics on the character sets actually in
play (ASCII plus the accented French letters used by the UI strings).
-/

namespace VoiceRag

/-! ## JavaScript string primitives -/

/-- Whitespace class used by `String.prototype.trim` and `\s`, restricted to
the ASCII whitespace characters that can occur in this client's data. -/
def isJsWs (c : Char) : Bool :=
  c = ' ' || c = '\t' || c = '\n' || c = '\r' || c = '\x0b' || c = '\x0c'

def jsTrimL (l : List Char) : List Char := l.dropWhile isJsWs

def jsTrimR (l : List Char) : List Char := (l.reverse.dropWhile isJsWs).reverse

def jsTrimList (l : List Char) : List Char := jsTrimR (jsTrimL l)

/-- JavaScript `String.prototype.trim`. -/
def jsTrim (s : String) : String := String.mk (jsTrimList s.data)

/-- Lowercasing of one character, mirroring `String.prototype.toLowerCase`
on ASCII letters and on the uppercase accented French letters that occur in
this client's strings; every other character is left unchanged. -/
def jsToLowerChar (c : Char) : Char :=
  if 'A' ≤ c ∧ c ≤ 'Z' then Char.ofNat (c.toNat + 32)
  else if c = 'À' then 'à' else if c = 'Â' then 'â' else if c = 'Ä' then 'ä'
  else if c = 'Ç' then 'ç' else if c = 'É' then 'é' else if c = 'È' then 'è'
  else if c = 'Ê' then 'ê' else if c = 'Ë' then 'ë' else if c = 'Î' then 'î'
  else if c = 'Ï' then 'ï' else if c = 'Ô' then 'ô' else if c = 'Ö' then 'ö'
  else if c = 'Ù' then 'ù' else if c = 'Û' then 'û' else if c = 'Ü' then 'ü'
  else c

def jsToLower (s : String) : String := String.mk (s.data.map jsToLowerChar)

/-- Test whether `pat` is an initial segment of `l`. -/
def leadsWith : List Char → List Char → Bool
  | [], _ => true
  | _ :: _, [] => false
  | p :: ps, c :: cs => p = c && leadsWith ps cs

/-- JavaScript `String.prototype.includes`: `sub` occurs somewhere in `l`. -/
def containsSub : List Char → List Char → Bool
  | [], sub => sub.isEmpty
  | c :: cs, sub => leadsWith sub (c :: cs) || containsSub cs sub

/-- Splitting on whitespace runs, dropping empty fragments; the accumulator
holds the characters of the token currently being read, in reverse. -/
def splitWsAux : List Char → List Char → List (List Char)
  | [], acc => if acc.isEmpty then [] else [acc.reverse]
  | c :: cs, acc =>
    if isJsWs c then
      if acc.isEmpty then splitWsAux cs [] else acc.reverse :: splitWsAux cs []
    else splitWsAux cs (c :: acc)

def splitWs (l : List Char) : List (List Char) := splitWsAux l []

/-- Order-preserving deduplication, as performed by `[...new Set(xs)]`. -/
def dedupAux : List String → List String → List String
  | [], _ => []
  | x :: xs, seen => if seen.contains x then dedupAux xs seen else x :: dedupAux xs (x :: seen)

def dedupKeepFirst (l : List String) : List String := dedupAux l []

/-- Truthiness of an optional string (JavaScript: `undefined` and the empty
string are falsy, every other string is truthy). -/
def strTruthy : Option String → Bool
  | none => false
  | some s => s ≠ ""

/-! ## Theme context (ThemeContext / ThemeProvider)

Source: `src/app/frontend/src/hooks/useSpeechToText.tsx` (ThemeProvider
snapshot, lines 389-433). -/

inductive Theme where
  | glass
  | white
  | black
deriving DecidableEq, BEq, Repr

def themeName : Theme → String
  | .glass => "glass"
  | .white => "white"
  | .black => "black"

/-- The cycle list `const themes: Theme[] = ['glass', 'white', 'black']`. -/
def themesList : List Theme := [.glass, .white, .black]

/-- Characters of the regex literal `theme-` in `/theme-\w+/g`. -/
def themePat : List Char := "theme-".data

/-- Word character class `\w` of the regex `/theme-\w+/g`. -/
def isWordChar (c : Char) : Bool :=
  ('a' ≤ c && c ≤ 'z') || ('A' ≤ c && c ≤ 'Z') || ('0' ≤ c && c ≤ '9') || c = '_'

/-- Scanner of the global regex replacement `replace(/theme-\w+/g, '')`.  The
counter holds how many characters of a recognized match remain to be deleted;
at counter zero, a position where the literal `theme-` is followed by at
least one word character starts a deletion of the literal plus the maximal
word-character run (the current character now, the other `5 + run` after),
and any other character is kept. -/
def removeThemeAux : List Char → Nat → List Char
  | [], _ => []
  | _ :: cs, k + 1 => removeThemeAux cs k
  | c :: cs, 0 =>
    if leadsWith themePat (c :: cs) ∧ ((c :: cs).drop 6).takeWhile isWordChar ≠ [] then
      removeThemeAux cs (5 + (((c :: cs).drop 6).takeWhile isWordChar).length)
    else
      c :: removeThemeAux cs 0

/-- Global regex replacement `className.replace(/theme-\w+/g, '')`. -/
def removeTheme (l : List Char) : List Char := removeThemeAux l 0

/-- Token `theme-<name>` appended for a theme. -/
def themeTok (t : Theme) : List Char := ("theme-" ++ themeName t).data

/-- One application of the body-class update performed both by `setTheme` and
by the `[theme]` effect:
`document.body.className.replace(/theme-\w+/g, '').concat(' theme-' + t).trim()`. -/
def applyThemeClass (body : List Char) (t : Theme) : List Char :=
  jsTrimList (removeTheme body ++ (' ' :: themeTok t))

/-- State owned by the theme provider: the React theme value, the persisted
`app-theme` storage slot, and the document body's `className` characters. -/
structure ThemeState where
  theme : Theme
  storage : Option String
  body : List Char
deriving DecidableEq, Repr

/-- Initializer of `useState`: a persisted value equal to one of the three
literals wins, anything else (absent, empty, corrupted) falls back to
`glass`. -/
def loadTheme : Option String → Theme
  | some s =>
    if s = "glass" then .glass
    else if s = "white" then .white
    else if s = "black" then .black
    else .glass
  | none => .glass

/-- Provider construction plus the initial `[theme]` effect, which projects
the loaded theme onto the document body. -/
def mountTheme (stored : Option String) (initialBody : List Char) : ThemeState :=
  let t := loadTheme stored
  { theme := t, storage := stored, body := applyThemeClass initialBody t }

/-- The `setTheme` operation: update state, persist, update the body class;
afterwards the `[theme]` effect fires again and re-applies the body class. -/
def setThemeOp (st : ThemeState) (t : Theme) : ThemeState :=
  { theme := t
  , storage := some (themeName t)
  , body := applyThemeClass (applyThemeClass st.body t) t }

/-- The `toggleTheme` operation: `themes[(themes.indexOf(theme) + 1) % themes.length]`. -/
def nextTheme (t : Theme) : Theme :=
  themesList.get ⟨(themesList.indexOf t + 1) % themesList.length, Nat.mod_lt _ (by decide)⟩

def toggleThemeOp (st : ThemeState) : ThemeState := setThemeOp st (nextTheme st.theme)

/-- The provider state after mounting over the persisted value and the given
initial body class string, followed by `n` invocations of `toggleTheme`. -/
def themeAfterToggles (stored : Option String) (initialBody : List Char) (n : Nat) : ThemeState :=
  toggleThemeOp^[n] (mountTheme stored initialBody)

/-- The document body's class list: the `className` string split on
whitespace runs. -/
def classList (body : List Char) : List (List Char) := splitWs body

/-- A token of the form `theme-<name>` (the literal followed by a non-empty
word-character run, the shape written and removed by the provider's regex). -/
def isThemeClassTok (tok : List Char) : Bool :=
  leadsWith themePat tok && (tok.drop 6 ≠ [] && (tok.drop 6).all isWordChar)

/-- Shape invariant of the document body's class string while the theme
provider manages it: either exactly the theme token, or a residue of the
initial class string (no `theme-` occurrence, non-whitespace head) followed
by a non-empty whitespace separator and the theme token. -/
def ThemeBodyInv (t : Theme) (body : List Char) : Prop :=
  body = themeTok t ∨
  ∃ base sep,
    containsSub base themePat = false ∧
    (∃ c cs, base = c :: cs ∧ isJsWs c = false) ∧
    sep ≠ [] ∧ (∀ c ∈ sep, isJsWs c = true) ∧
    body = base ++ (sep ++ themeTok t)

/-! ## Voice settings session (useVoiceSettings) -/

def DEFAULT_VOICE : String := "alloy"

/-- Identifiers of the ten-voice catalogue (voice-selector.tsx sources). -/
def AVAILABLE_VOICE_IDS : List String :=
  ["alloy", "ash", "ballad", "cedar", "coral", "echo", "marin", "sage", "shimmer", "verse"]

/-- The initial-load effect of `useVoiceSettings` for one mode: the state
starts at the default voice and is overwritten by any truthy persisted value;
there is no validation against the voice catalogue. -/
def loadVoicePreference : Option String → String
  | some s => if s = "" then DEFAULT_VOICE else s
  | none => DEFAULT_VOICE

/-- The `updateTextVoice` operation: set the in-memory value, persist it, and
fire the `/api/voice-settings` notification with `{voice, mode: 'text'}`;
returned as (new selected voice, new storage slot, posted body). -/
def updateTextVoice (voice : String) : String × Option String × (String × String) :=
  (voice, some voice, (voice, "text"))

/-! ## Text chat sessions

Sources: `useChatWithAudio` (useSpeechToText.tsx snapshot, lines 218-364) and
the plain `useChat` (useChat.tsx). -/

inductive Role where
  | user
  | assistant
deriving DecidableEq, Repr

structure ChatMessage where
  role : Role
  content : String
  timestamp : Nat
  audio : Option String := none
  audioFormat : Option String := none
  audioTranscript : Option String := none
  audioId : Option String := none
  voice : Option String := none
deriving DecidableEq, Repr

structure ChatDetails where
  reason : Option String := none
  action : Option String := none
  documentation : Option String := none
deriving DecidableEq, Repr

structure ChatApiResponse where
  message : String
  audio : Option String := none
  audio_format : Option String := none
  audio_transcript : Option String := none
  audio_id : Option String := none
  role : String := "assistant"
  tokens_used : Option Nat := none
  model : String := ""
  error : Option String := none
  error_type : Option String := none
  details : Option ChatDetails := none
deriving DecidableEq, Repr

/-- Outcome of the `fetch('/api/chat', ...)` call, as seen by the hook. -/
inductive FetchOutcome where
  | failure (reason : String)
  | httpError (status : Nat)
  | success (data : ChatApiResponse)
deriving DecidableEq, Repr

/-- One `{role, content}` entry of the `history` array sent to the backend. -/
structure HistoryEntry where
  role : Role
  content : String
deriving DecidableEq, Repr

/-- Body of the POST to `/api/chat`. -/
structure ChatRequest where
  message : String
  history : List HistoryEntry
  generate_audio : Bool
  voice : String
deriving DecidableEq, Repr

structure AudioChatState where
  messages : List ChatMessage := []
  isLoading : Bool := false
  isGeneratingAudio : Bool := false
  lastAudioData : Option String := none
  lastAudioFormat : Option String := none
  lastAudioTranscript : Option String := none
  lastVoice : Option String := none
deriving DecidableEq, Repr

/-- Argument passed to the `onContentSafetyError` delegate. -/
structure ContentSafetyDetails where
  message : String
  reason : Option String := none
  action : Option String := none
  documentation : Option String := none
deriving DecidableEq, Repr

/-- Everything observable about one `sendMessage` call of the audio-augmented
hook: the final state, the issued network request (if any), the returned
value, and the delegate invocations in order. -/
structure SendOutcome where
  state : AudioChatState
  request : Option ChatRequest := none
  returnValue : Option ChatMessage := none
  contentSafetyCalls : List ContentSafetyDetails := []
  errorCalls : List String := []
  newMessageCalls : List ChatMessage := []
  audioReceivedCalls : List (String × String × Option String) := []
deriving DecidableEq, Repr

/-- Shared error path of `useChatWithAudio.sendMessage`'s catch block: invoke
`onError`, append the synthetic assistant error message, return null; the
finally block clears both flags. -/
def audioChatErrorPath (stOpt : AudioChatState) (userMessage : ChatMessage)
    (request : ChatRequest) (reason : String) (now : Nat) : SendOutcome :=
  let errorResponse : ChatMessage :=
    { role := .assistant, content := "Sorry, I encountered an error: " ++ reason, timestamp := now }
  { state :=
      { stOpt with
        messages := stOpt.messages ++ [errorResponse]
        isLoading := false
        isGeneratingAudio := false }
  , request := some request
  , returnValue := none
  , errorCalls := [reason]
  , newMessageCalls := [userMessage, errorResponse] }

/-- The `useChatWithAudio.sendMessage` operation.  The closure value
`messages` used both for the optimistic append and for the history projection
is the state at call entry, so the history sent to the backend does not
include the optimistic user message of the current turn.  `now` stands for
`new Date()`; timestamps play no role in any property below. -/
def sendMessageWithAudio (st : AudioChatState) (message : String)
    (generateAudio : Bool) (voice : String) (now : Nat)
    (outcome : FetchOutcome) : SendOutcome :=
  if jsTrim message = "" ∨ st.isLoading = true then
    { state := st }
  else
    let userMessage : ChatMessage :=
      { role := .user, content := jsTrim message, timestamp := now }
    let stOpt : AudioChatState :=
      { st with
        messages := st.messages ++ [userMessage]
        isLoading := true
        isGeneratingAudio := if generateAudio then true else st.isGeneratingAudio }
    let request : ChatRequest :=
      { message := jsTrim message
      , history := st.messages.map (fun m => { role := m.role, content := m.content })
      , generate_audio := generateAudio
      , voice := voice }
    match outcome with
    | .failure reason => audioChatErrorPath stOpt userMessage request reason now
    | .httpError status =>
      audioChatErrorPath stOpt userMessage request ("HTTP error! status: " ++ toString status) now
    | .success data =>
      if data.error = some "content_safety_violation" ∨ data.error_type = some "content_filter" then
        { state := { stOpt with isLoading := false, isGeneratingAudio := false }
        , request := some request
        , returnValue := none
        , contentSafetyCalls :=
            [ { message := if data.message ≠ "" then data.message else "Contenu non autorisé détecté"
              , reason := data.details.bind ChatDetails.reason
              , action := data.details.bind ChatDetails.action
              , documentation := data.details.bind ChatDetails.documentation } ]
        , newMessageCalls := [userMessage] }
      else if strTruthy data.error then
        audioChatErrorPath stOpt userMessage request (data.error.getD "") now
      else
        let assistantMessage : ChatMessage :=
          { role := .assistant
          , content :=
              if data.message ≠ "" then data.message
              else if strTruthy data.audio then
                if strTruthy data.audio_transcript then data.audio_transcript.getD ""
                else "Réponse audio générée"
              else "No response received"
          , timestamp := now
          , audio := data.audio
          , audioFormat := some (if strTruthy data.audio_format then data.audio_format.getD "" else "mp3")
          , audioTranscript := data.audio_transcript
          , audioId := data.audio_id
          , voice := some voice }
        let stMsg : AudioChatState := { stOpt with messages := stOpt.messages ++ [assistantMessage] }
        let stAudio : AudioChatState :=
          if strTruthy data.audio ∧ generateAudio = true then
            { stMsg with
              lastAudioData := data.audio
              lastAudioFormat := some (if strTruthy data.audio_format then data.audio_format.getD "" else "mp3")
              lastAudioTranscript := if strTruthy data.audio_transcript then data.audio_transcript else none
              lastVoice := some voice }
          else stMsg
        { state := { stAudio with isLoading := false, isGeneratingAudio := false }
        , request := some request
        , returnValue := some assistantMessage
        , newMessageCalls := [userMessage, assistantMessage]
        , audioReceivedCalls :=
            if strTruthy data.audio ∧ generateAudio = true then
              [ ( data.audio.getD ""
                , if strTruthy data.audio_format then data.audio_format.getD "" else "mp3"
                , data.audio_transcript ) ]
            else [] }

/-- The `clearMessages` operation of the audio-augmented hook. -/
def clearMessagesWithAudio (st : AudioChatState) : AudioChatState :=
  { st with
    messages := []
    lastAudioData := none
    lastAudioFormat := none
    lastAudioTranscript := none
    lastVoice := none }

structure PlainChatState where
  messages : List ChatMessage := []
  isLoading : Bool := false
deriving DecidableEq, Repr

structure PlainSendOutcome where
  state : PlainChatState
  request : Option ChatRequest := none
  newMessageCalls : List ChatMessage := []
  audioReceivedCalls : List String := []
deriving DecidableEq, Repr

/-- Error path of the plain `useChat.sendMessage` catch block; note that the
state updater `prev => [...prev, userMessage, errorMessage]` appends the user
message a second time, after the optimistic append. -/
def plainChatErrorPath (stOpt : PlainChatState) (userMessage : ChatMessage)
    (request : ChatRequest) (reason : String) (now : Nat) : PlainSendOutcome :=
  let errorMessage : ChatMessage :=
    { role := .assistant, content := "Sorry, I encountered an error: " ++ reason, timestamp := now }
  { state := { messages := stOpt.messages ++ [userMessage, errorMessage], isLoading := false }
  , request := some request
  , newMessageCalls := [userMessage, errorMessage] }

/-- The plain `useChat.sendMessage` operation.  As in the audio-augmented
variant, the optimistic append uses the call-entry `messages` closure; the
success updater `prev => [...prev, userMessage, assistantMessage]` appends
the user message a second time. -/
def sendMessagePlain (st : PlainChatState) (message : String) (now : Nat)
    (outcome : FetchOutcome) : PlainSendOutcome :=
  if jsTrim message = "" ∨ st.isLoading = true then
    { state := st }
  else
    let userMessage : ChatMessage :=
      { role := .user, content := jsTrim message, timestamp := now }
    let stOpt : PlainChatState := { messages := st.messages ++ [userMessage], isLoading := true }
    let request : ChatRequest :=
      { message := jsTrim message
      , history := st.messages.map (fun m => { role := m.role, content := m.content })
      , generate_audio := true
      , voice := "alloy" }
    match outcome with
    | .failure reason => plainChatErrorPath stOpt userMessage request reason now
    | .httpError status =>
      plainChatErrorPath stOpt userMessage request ("HTTP error! status: " ++ toString status) now
    | .success data =>
      if strTruthy data.error then
        plainChatErrorPath stOpt userMessage request (data.error.getD "") now
      else
        let assistantMessage : ChatMessage :=
          { role := .assistant
          , content := if data.message ≠ "" then data.message else "No response received"
          , timestamp := now
          , audio := data.audio }
        { state := { messages := stOpt.messages ++ [userMessage, assistantMessage], isLoading := false }
        , request := some request
        , newMessageCalls := [userMessage, assistantMessage]
        , audioReceivedCalls :=
            match data.audio with
            | some a => if a ≠ "" then [a] else []
            | none => [] }

/-! ## Application shell: response.done handling

Source: `src/app/frontend/src/App.tsx`, `onReceivedResponseDone`
(lines 221-232). -/

/-- Handler for a `response.done` frame: commit the in-flight assistant
transcript to the completed list when it is truthy and `!prev.includes(...)`
(that is, not already present anywhere in the list), then clear the in-flight
value; returns (new completed list, new in-flight transcript). -/
def onReceivedResponseDone (completedAssistantMessages : List String)
    (currentAssistantTranscript : String) : List String × String :=
  ( if currentAssistantTranscript ≠ "" ∧ currentAssistantTranscript ∉ completedAssistantMessages then
      completedAssistantMessages ++ [currentAssistantTranscript]
    else completedAssistantMessages
  , "" )

/-! ## Call history popup summary

Source: `src/unnamed/part_006`, `CallHistoryPopup.getSummary` and the summary
strip of the rendered popup. -/

structure CallHistoryItem where
  date : String
  type : String
  reason : String
  outcome : String
  agent : Option String := none
  callDuration : Option String := none
  notes : Option String := none
deriving DecidableEq, Repr

/-- Predicate of the `claimCalls` filter:
`call.type.toLowerCase().includes('réclamation') || call.type.toLowerCase().includes('claim')`. -/
def isClaimTypeCall (call : CallHistoryItem) : Bool :=
  containsSub (jsToLower call.type).data "réclamation".data ||
  containsSub (jsToLower call.type).data "claim".data

structure CallSummary where
  totalCalls : Nat
  claimCalls : Nat
  recentCall : Option CallHistoryItem
deriving DecidableEq, Repr

/-- The popup's `getSummary`: total count, claim-like count, and
`callHistory.length > 0 ? callHistory[0] : null` with no date comparison. -/
def getSummary (callHistory : List CallHistoryItem) : CallSummary :=
  { totalCalls := callHistory.length
  , claimCalls := (callHistory.filter isClaimTypeCall).length
  , recentCall := if callHistory.length > 0 then callHistory.head? else none }

/-- What the "Dernier contact" cell of the summary strip selects: the raw
date string of `recentCall` (which the view then locale-formats), or the
literal placeholder `N/A` when there is no call. -/
inductive LastContactDisplay where
  | date (raw : String)
  | placeholder
deriving DecidableEq, Repr

def lastContactDisplay (callHistory : List CallHistoryItem) : LastContactDisplay :=
  match (getSummary callHistory).recentCall with
  | some call => .date call.date
  | none => .placeholder

/-! ## Telemetry panel and tool-call detail formatting

Sources: `telemetry-panel.tsx` (`formatDuration`, `getStatusColor`) and
`tool-call-detail.tsx` (the header row of `ToolCallDetail`).  Durations are
JavaScript numbers in seconds; they are modelled as rationals, on which the
rounding performed by `Math.round` and `toFixed` is exact. -/

/-- JavaScript `Math.round` and the rounding of `toFixed` (round half up). -/
def jsRound (q : ℚ) : ℤ := ⌊q + 1 / 2⌋

/-- Rendering of `n.toFixed(0)` for a non-negative number. -/
def jsToFixed0 (q : ℚ) : String := toString (jsRound q)

/-- Left pad of the two fractional digits of `toFixed(2)`. -/
def pad2 (n : ℤ) : String :=
  if n.toNat < 10 then "0" ++ toString n.toNat else toString n.toNat

/-- Rendering of `n.toFixed(2)` for a non-negative number. -/
def jsToFixed2 (q : ℚ) : String :=
  let n := jsRound (q * 100)
  toString (n / 100) ++ "." ++ pad2 (n % 100)

/-- The duration badge of the `ToolCallDetail` header row:
`call.duration && <span>{(call.duration * 1000).toFixed(0)}ms</span>`;
rendered for every truthy (non-zero) duration, always in milliseconds. -/
def toolCallDurationBadge (duration : Option ℚ) : Option String :=
  match duration with
  | some d => if d ≠ 0 then some (jsToFixed0 (d * 1000) ++ "ms") else none
  | none => none

/-- The status colour classes of the `ToolCallDetail` header row: a ternary
chain with `completed` and `running` cases and a red catch-all. -/
def toolCallStatusClass (status : String) : String :=
  if status = "completed" then "bg-green-500/20 text-green-400"
  else if status = "running" then "bg-yellow-500/20 text-yellow-400"
  else "bg-red-500/20 text-red-400"

/-- `getStatusColor` of the telemetry panel (used by the overview rows). -/
def getStatusColor (status : String) : String :=
  if status = "completed" then "text-green-400"
  else if status = "running" then "text-yellow-400"
  else if status = "failed" then "text-red-400"
  else "text-gray-400"

/-- `formatDuration` of the telemetry panel (used by the overview rows):
`N/A` for a falsy duration, whole milliseconds below one second, otherwise
seconds to two decimal places. -/
def formatDuration (duration : Option ℚ) : String :=
  match duration with
  | none => "N/A"
  | some d =>
    if d = 0 then "N/A"
    else if d < 1 then toString (jsRound (d * 1000)) ++ "ms"
    else jsToFixed2 d ++ "s"

/-! ## Self-introduction name detector

Source: `src/app/frontend/src/App.tsx`, `FRENCH_NAMES` and
`detectNameMentions` (lines 38-135).  Each introduction regex is a literal
prefix (with one single-character class and one optional comma) followed by a
capture `([a-z]+)`; the pieces below spell those regexes out and the matcher
implements `String.prototype.matchAll` for them: scan left to right, and on a
match collect the capture and continue after the full match. -/

def FRENCH_NAMES : List String :=
  [ "pierre", "jean", "marie", "paul", "michel", "anne", "françois", "christian"
  , "philippe", "jacques", "alain", "bernard", "claude", "daniel", "didier", "eric"
  , "fabrice", "gérard", "henri", "jerome", "jérôme", "julien", "laurent", "marc"
  , "olivier", "patrick", "robert", "stéphane", "thierry", "vincent", "yves"
  , "sophie", "nathalie", "isabelle", "catherine", "françoise", "monique", "sylvie"
  , "patricia", "martine", "nicole", "véronique", "chantal", "dominique", "brigitte"
  , "christine", "corinne", "céline", "sandrine", "valérie", "karine", "laure"
  , "caroline", "aurélie", "ludovic", "frédéric" ]

/-- A piece of one introduction pattern: a literal run, a one-character
class, or an optional single character. -/
inductive PatPiece where
  | lit (cs : List Char)
  | oneOf (cs : List Char)
  | optChar (c : Char)

/-- Match the pattern pieces as a prefix of `l`, returning the remainder; the
optional-character piece is greedy with backtracking, as in the regex. -/
def matchPieces : List PatPiece → List Char → Option (List Char)
  | [], l => some l
  | .lit cs :: ps, l => if leadsWith cs l then matchPieces ps (l.drop cs.length) else none
  | .oneOf cs :: ps, l =>
    match l with
    | [] => none
    | c :: rest => if cs.contains c then matchPieces ps rest else none
  | .optChar c :: ps, l =>
    match l with
    | [] => matchPieces ps []
    | c' :: rest =>
      if c' = c then
        match matchPieces ps rest with
        | some r => some r
        | none => matchPieces ps l
      else matchPieces ps l

def isAsciiLower (c : Char) : Bool := 'a' ≤ c && c ≤ 'z'

/-- Try one full introduction regex at the head of `l`: the literal pieces
followed by a non-empty `[a-z]+` capture; returns (capture, rest after the
match). -/
def matchIntroAt (pieces : List PatPiece) (l : List Char) : Option (List Char × List Char) :=
  match matchPieces pieces l with
  | none => none
  | some rest =>
    let cap := rest.takeWhile isAsciiLower
    if cap.isEmpty then none else some (cap, rest.dropWhile isAsciiLower)

/-- `matchAll` for one introduction regex, collecting all captures; `fuel` is
an upper bound on the scan length (callers pass `l.length + 1`). -/
def matchAllCaptures (pieces : List PatPiece) : Nat → List Char → List (List Char)
  | 0, _ => []
  | fuel + 1, l =>
    match l with
    | [] => []
    | _ :: cs =>
      match matchIntroAt pieces l with
      | some (cap, rest) => cap :: matchAllCaptures pieces fuel rest
      | none => matchAllCaptures pieces fuel cs

/-- The six introduction patterns of `detectNameMentions`; the character
class `['']` of the source consists of two ASCII apostrophes. -/
def introPatterns : List (List PatPiece) :=
  [ [.lit "je suis ".data]
  , [.lit "je m".data, .oneOf ['\'', '\''], .lit "appelle ".data]
  , [.lit "mon nom est ".data]
  , [.lit "c".data, .oneOf ['\'', '\''], .lit "est ".data]
  , [.lit "moi c".data, .oneOf ['\'', '\''], .lit "est ".data]
  , [.lit "je me présente".data, .optChar ',', .lit " ".data] ]

/-- `word.replace(/[.,!?;:]/g, '')`. -/
def stripPunct (w : List Char) : List Char :=
  w.filter (fun c => !(c = '.' || c = ',' || c = '!' || c = '?' || c = ';' || c = ':'))

structure NameDetection where
  hasNameMention : Bool
  detectedNames : List String
deriving DecidableEq, Repr

/-- The `detectNameMentions` heuristic: lowercase the utterance, collect the
captures of the six introduction regexes that are in `FRENCH_NAMES`, then
independently check every whitespace-separated word (punctuation-stripped)
against the same list; report whether anything was found and the
deduplicated detections in insertion order.  The word split `split(/\s+/)`
can also produce empty fragments at the ends of the string, which never pass
the name check and are therefore not materialized here. -/
def detectNameMentions (text : String) : NameDetection :=
  let lowerText := text.data.map jsToLowerChar
  let patternHits :=
    (introPatterns.map (fun p =>
      (matchAllCaptures p (lowerText.length + 1) lowerText).filterMap (fun cap =>
        let name := String.mk cap
        if FRENCH_NAMES.contains name then some name else none))).flatten
  let wordHits :=
    (splitWs lowerText).filterMap (fun w =>
      let word := String.mk (stripPunct w)
      if FRENCH_NAMES.contains word then some word else none)
  let detected := patternHits ++ wordHits
  { hasNameMention := detected.length > 0
  , detectedNames := dedupKeepFirst detected }

/-! ## JSON values and strict parsing

`JSON.parse` accepts exactly the JSON grammar and throws on anything else,
in particular on any non-whitespace trailing content.  Numbers are kept as
their lexemes, which preserves the grammar check without introducing
floating-point values; parsing returns `none` where `JSON.parse` throws. -/

inductive Json where
  | null
  | bool (b : Bool)
  | num (lexeme : String)
  | str (s : String)
  | arr (elems : List Json)
  | obj (fields : List (String × Json))

/-- JSON insignificant whitespace. -/
def isJsonWs (c : Char) : Bool := c = ' ' || c = '\t' || c = '\n' || c = '\r'

def skipJsonWs (l : List Char) : List Char := l.dropWhile isJsonWs

def hexVal (c : Char) : Option Nat :=
  if '0' ≤ c ∧ c ≤ '9' then some (c.toNat - '0'.toNat)
  else if 'a' ≤ c ∧ c ≤ 'f' then some (c.toNat - 'a'.toNat + 10)
  else if 'A' ≤ c ∧ c ≤ 'F' then some (c.toNat - 'A'.toNat + 10)
  else none

/-- Body of a JSON string after its opening quote: content plus remainder
after the closing quote; unescaped control characters and invalid escapes
make `JSON.parse` throw. -/
def parseStringBody : Nat → List Char → Option (List Char × List Char)
  | 0, _ => none
  | _ + 1, [] => none
  | fuel + 1, c :: rest =>
    if c = '"' then some ([], rest)
    else if c = '\\' then
      match rest with
      | [] => none
      | e :: rest2 =>
        if e = '"' ∨ e = '\\' ∨ e = '/' then
          match parseStringBody fuel rest2 with
          | some (s, r) => some (e :: s, r)
          | none => none
        else if e = 'b' then
          match parseStringBody fuel rest2 with
          | some (s, r) => some ('\x08' :: s, r)
          | none => none
        else if e = 'f' then
          match parseStringBody fuel rest2 with
          | some (s, r) => some ('\x0c' :: s, r)
          | none => none
        else if e = 'n' then
          match parseStringBody fuel rest2 with
          | some (s, r) => some ('\n' :: s, r)
          | none => none
        else if e = 'r' then
          match parseStringBody fuel rest2 with
          | some (s, r) => some ('\r' :: s, r)
          | none => none
        else if e = 't' then
          match parseStringBody fuel rest2 with
          | some (s, r) => some ('\t' :: s, r)
          | none => none
        else if e = 'u' then
          match rest2 with
          | h1 :: h2 :: h3 :: h4 :: rest3 =>
            match hexVal h1, hexVal h2, hexVal h3, hexVal h4 with
            | some v1, some v2, some v3, some v4 =>
              let n := ((v1 * 16 + v2) * 16 + v3) * 16 + v4
              if n.isValidChar then
                match parseStringBody fuel rest3 with
                | some (s, r) => some (Char.ofNat n :: s, r)
                | none => none
              else none
            | _, _, _, _ => none
          | _ => none
        else none
    else if c.toNat < 32 then none
    else
      match parseStringBody fuel rest with
      | some (s, r) => some (c :: s, r)
      | none => none

def isDigit (c : Char) : Bool := '0' ≤ c && c ≤ '9'

/-- Lexeme of a JSON number at the head of `l`: `-? int frac? exp?`. -/
def parseNumberLex (l : List Char) : Option (List Char × List Char) :=
  let (sign, l1) :=
    match l with
    | '-' :: rest => (['-'], rest)
    | _ => (([] : List Char), l)
  let intDigits := l1.takeWhile isDigit
  let l2 := l1.dropWhile isDigit
  if intDigits = [] then none
  else if intDigits.length > 1 ∧ intDigits.headD '0' = '0' then none
  else
    let (fracPart, l3) :=
      match l2 with
      | '.' :: rest =>
        let ds := rest.takeWhile isDigit
        if ds = [] then (none, l2) else (some ('.' :: ds), rest.dropWhile isDigit)
      | _ => (none, l2)
    match fracPart, l2 with
    | none, '.' :: _ => none
    | _, _ =>
      let (expPart, l4) :=
        match l3 with
        | e :: rest =>
          if e = 'e' ∨ e = 'E' then
            let (esign, rest2) :=
              match rest with
              | '+' :: r => (['+'], r)
              | '-' :: r => (['-'], r)
              | _ => (([] : List Char), rest)
            let ds := rest2.takeWhile isDigit
            if ds = [] then (none, l3) else (some (e :: (esign ++ ds)), rest2.dropWhile isDigit)
          else (none, l3)
        | [] => (none, l3)
      match expPart, l3 with
      | none, e :: _ =>
        if e = 'e' ∨ e = 'E' then none
        else some (sign ++ intDigits ++ (fracPart.getD []), l3)
      | none, [] => some (sign ++ intDigits ++ (fracPart.getD []), l3)
      | some ep, _ => some (sign ++ intDigits ++ (fracPart.getD []) ++ ep, l4)

mutual

/-- Parse one JSON value after skipping leading whitespace. -/
def parseJsonValue : Nat → List Char → Option (Json × List Char)
  | 0, _ => none
  | fuel + 1, l =>
    let l1 := skipJsonWs l
    match l1 with
    | [] => none
    | c :: rest =>
      if c = 'n' then
        if leadsWith "null".data l1 then some (.null, l1.drop 4) else none
      else if c = 't' then
        if leadsWith "true".data l1 then some (.bool true, l1.drop 4) else none
      else if c = 'f' then
        if leadsWith "false".data l1 then some (.bool false, l1.drop 5) else none
      else if c = '"' then
        match parseStringBody (rest.length + 1) rest with
        | some (s, r) => some (.str (String.mk s), r)
        | none => none
      else if c = '[' then
        let r1 := skipJsonWs rest
        match r1 with
        | ']' :: r2 => some (.arr [], r2)
        | _ =>
          match parseJsonArrayItems fuel rest with
          | some (xs, r) => some (.arr xs, r)
          | none => none
      else if c = '{' then
        let r1 := skipJsonWs rest
        match r1 with
        | '}' :: r2 => some (.obj [], r2)
        | _ =>
          match parseJsonObjItems fuel rest with
          | some (fs, r) => some (.obj fs, r)
          | none => none
      else
        match parseNumberLex l1 with
        | some (lex, r) => some (.num (String.mk lex), r)
        | none => none

/-- Items of a non-empty JSON array, after the opening bracket. -/
def parseJsonArrayItems : Nat → List Char → Option (List Json × List Char)
  | 0, _ => none
  | fuel + 1, l =>
    match parseJsonValue fuel l with
    | none => none
    | some (v, r) =>
      match skipJsonWs r with
      | ',' :: r2 =>
        match parseJsonArrayItems fuel r2 with
        | some (xs, r3) => some (v :: xs, r3)
        | none => none
      | ']' :: r2 => some ([v], r2)
      | _ => none

/-- Members of a non-empty JSON object, after the opening brace. -/
def parseJsonObjItems : Nat → List Char → Option (List (String × Json) × List Char)
  | 0, _ => none
  | fuel + 1, l =>
    match skipJsonWs l with
    | '"' :: r =>
      match parseStringBody (r.length + 1) r with
      | none => none
      | some (k, r1) =>
        match skipJsonWs r1 with
        | ':' :: r2 =>
          match parseJsonValue fuel r2 with
          | none => none
          | some (v, r3) =>
            match skipJsonWs r3 with
            | ',' :: r4 =>
              match parseJsonObjItems fuel r4 with
              | some (fs, r5) => some ((String.mk k, v) :: fs, r5)
              | none => none
            | '}' :: r4 => some ([(String.mk k, v)], r4)
            | _ => none
        | _ => none
    | _ => none

end

/-- `JSON.parse` on a whole string: one value with nothing but whitespace
after it; `none` where `JSON.parse` throws. -/
def jsonParse (s : String) : Option Json :=
  match parseJsonValue (2 * s.data.length + 8) s.data with
  | some (v, rest) => if skipJsonWs rest = [] then some v else none
  | none => none

/-! ## Application shell: tool-response handling

Source: `src/app/frontend/src/App.tsx`,
`onReceivedExtensionMiddleTierToolResponse` (lines 233-297).  The handler
first runs `JSON.parse` on the raw `tool_result` string inside an outer
try/catch; grounding handling follows, then an inner try/catch wraps the
call-history check and the `__METADATA__` marker extraction.  JavaScript
exceptions thrown mid-way (property access on `null`, `.map` on a
non-array, the `in` operator on a primitive) leave the state writes already
performed in place; they are modelled with `Except`, the error case carrying
the state reached when the exception was thrown. -/

/-- JavaScript truthiness of a JSON value; a number is falsy exactly when
its mantissa (the part of the lexeme before any exponent) has no non-zero
digit. -/
def jsTruthyJson : Json → Bool
  | .null => false
  | .bool b => b
  | .str s => s ≠ ""
  | .num lex =>
    ((lex.data.takeWhile (fun c => !(c = 'e' || c = 'E'))).any
      (fun c => '1' ≤ c && c ≤ '9'))
  | .arr _ => true
  | .obj _ => true

def jsTruthyOpt : Option Json → Bool
  | none => false
  | some v => jsTruthyJson v

/-- Object member lookup with last-duplicate-wins, as produced by
`JSON.parse`. -/
def lookupLast (fields : List (String × Json)) (k : String) : Option Json :=
  match fields.reverse.find? (fun p => p.1 = k) with
  | some p => some p.2
  | none => none

/-- Property read `v[k]` for a string key on a parsed JSON value; `undefined`
is `none`.  Reads on `null` throw and are handled at each use site. -/
def jsGetField (v : Json) (k : String) : Option Json :=
  match v with
  | .obj fs => lookupLast fs k
  | _ => none

/-- The `in` operator's key test (callers ensure `v` is an object or array;
on a primitive `in` throws, which the handler models separately). -/
def jsHasKey (v : Json) (k : String) : Bool :=
  match v with
  | .obj fs => fs.any (fun p => p.1 = k)
  | _ => false

/-- Positivity test `x > 0` after JavaScript number coercion of a decimal
lexeme or numeric string: a positive sign and a non-zero mantissa digit. -/
def numLexPos (l : List Char) : Bool :=
  match l with
  | '-' :: _ => false
  | '+' :: rest => (rest.takeWhile (fun c => !(c = 'e' || c = 'E'))).any (fun c => '1' ≤ c && c ≤ '9')
  | _ => (l.takeWhile (fun c => !(c = 'e' || c = 'E'))).any (fun c => '1' ≤ c && c ≤ '9')

/-- Coercing comparison `s > 0` for a string: `Number(s)` (whitespace
trimmed, decimal forms) must be a positive number; non-numeric strings give
`NaN`, for which the comparison is false.  Grammar check reuses the JSON
number lexer, which accepts the decimal forms relevant here. -/
def strNumPos (s : String) : Bool :=
  let t := jsTrimList s.data
  match parseNumberLex t with
  | some (lex, rest) => rest = [] && numLexPos lex
  | none => false

/-- The check `callHistoryData.length > 0` on a truthy JSON value: arrays
and strings have a length; an object only through an explicit `length`
member (numbers and string coercions handled, exotic shapes are falsy
here). -/
def jsLengthPos : Json → Bool
  | .arr xs => xs.length > 0
  | .str s => s.data.length > 0
  | .obj fs =>
    match lookupLast fs "length" with
    | some (.num lex) => numLexPos lex.data
    | some (.str s) => strNumPos s
    | some (.bool b) => b
    | _ => false
  | _ => false

/-- The element read `callHistoryData[0]`: array head, first character of a
string, or the `"0"` member of an object; `undefined` otherwise. -/
def jsIndex0 : Json → Option Json
  | .arr (x :: _) => some x
  | .arr [] => none
  | .str s =>
    match s.data with
    | c :: _ => some (.str (String.mk [c]))
    | [] => none
  | .obj fs => lookupLast fs "0"
  | _ => none

/-- A grounding file record as built by the handler's two `sources.map`
projections (field values are parsed JSON values; `none` is `undefined`). -/
structure GroundingFileJ where
  id : Option Json
  name : Option Json
  content : Option Json

/-- State of the application shell touched by the tool-response handler. -/
structure ShellToolState where
  groundingFiles : List GroundingFileJ
  enhancedGrounding : Option Json
  isGroundingVisible : Bool
  callHistoryMetadata : Option Json
  isCallHistoryVisible : Bool
  ragSources : List Json

/-- Enhanced-branch projection
`x => ({id: x.chunk_id, name: x.title || 'Document sans titre', content: x.chunk})`;
property access on a `null` element throws (`none`). -/
def toGroundingFileEnhanced (x : Json) : Option GroundingFileJ :=
  match x with
  | .null => none
  | _ =>
    some
      { id := jsGetField x "chunk_id"
      , name :=
          some
            (match jsGetField x "title" with
             | some t => if jsTruthyJson t then t else .str "Document sans titre"
             | none => .str "Document sans titre")
      , content := jsGetField x "chunk" }

/-- Legacy-branch projection `x => ({id: x.chunk_id, name: x.title, content: x.chunk})`. -/
def toGroundingFileLegacy (x : Json) : Option GroundingFileJ :=
  match x with
  | .null => none
  | _ =>
    some
      { id := jsGetField x "chunk_id"
      , name := jsGetField x "title"
      , content := jsGetField x "chunk" }

/-- Grounding phase of the handler (enhanced format first, else legacy);
the error case carries the state at the moment a JavaScript exception was
thrown inside the outer try. -/
def groundingPhase (st0 : ShellToolState) (result : Json) :
    Except ShellToolState ShellToolState :=
  if jsHasKey result "grounding_info" ∧ jsTruthyOpt (jsGetField result "grounding_info") then
    let st1 :=
      { st0 with enhancedGrounding := some result, isGroundingVisible := true }
    let sources := jsGetField result "sources"
    if jsTruthyOpt sources then
      match sources with
      | some (.arr xs) =>
        match xs.mapM toGroundingFileEnhanced with
        | some files => .ok { st1 with groundingFiles := st1.groundingFiles ++ files }
        | none => .error st1
      | _ => .error st1
    else .ok st1
  else
    match jsGetField result "sources" with
    | some (.arr xs) =>
      match xs.mapM toGroundingFileLegacy with
      | some files => .ok { st0 with groundingFiles := st0.groundingFiles ++ files }
      | none => .error st0
    | _ => .ok st0

/-- Call-history phase (first half of the inner try); the boolean is false
when the logging line `callHistoryData[0].customer` throws, which makes the
inner catch skip the remaining marker extraction. -/
def callHistoryPhase (st : ShellToolState) (result : Json) : ShellToolState × Bool :=
  match jsGetField result "__CALL_HISTORY_METADATA__" with
  | some v =>
    if jsHasKey result "__CALL_HISTORY_METADATA__" ∧ jsTruthyJson v then
      if jsLengthPos v then
        let st' := { st with callHistoryMetadata := jsIndex0 v, isCallHistoryVisible := true }
        match jsIndex0 v with
        | none => (st', false)
        | some .null => (st', false)
        | some _ => (st', true)
      else (st, true)
    else (st, true)
  | none => (st, true)

/-- Regex search `toolResponseText.match(/__METADATA__: (.+)$/)`: the
leftmost occurrence of the literal followed by a non-empty newline-free run
extending to the end of the string; the returned characters are the capture
group. -/
def metadataMatch : List Char → Option (List Char)
  | [] => none
  | c :: cs =>
    if leadsWith "__METADATA__: ".data (c :: cs) then
      let rest := (c :: cs).drop ("__METADATA__: ".data.length)
      if rest ≠ [] ∧ rest.all (fun ch => !(ch = '\n' || ch = '\r')) then some rest
      else metadataMatch cs
    else metadataMatch cs

/-- The full `onReceivedExtensionMiddleTierToolResponse` handler on the raw
`tool_result` string.  A failing outer `JSON.parse` (or the `in` operator
applied to a parsed primitive) reaches the outer catch and leaves the state
unchanged; inner failures keep the updates already made. -/
def onToolResponseMessage (st : ShellToolState) (tool_result : String) : ShellToolState :=
  match jsonParse tool_result with
  | none => st
  | some result =>
    match result with
    | .obj _ | .arr _ =>
      match groundingPhase st result with
      | .error st' => st'
      | .ok st2 =>
        let (st3, noThrow) := callHistoryPhase st2 result
        if noThrow then
          match metadataMatch tool_result.data with
          | some cap =>
            match jsonParse (String.mk cap) with
            | some (.arr xs) => { st3 with ragSources := xs }
            | _ => st3
          | none => st3
        else st3
    | _ => st

/-! ## Concrete inputs used by the claim analyses -/

/-- Raw `tool_result` carrying the side-channel marker after human-readable
text, in the shape the spec's marker convention describes. -/
def c4FailingInput : String :=
  "some text\n__METADATA__: [\x7b\"id\":\"a\",\"content\":\"c\",\"title\":\"t\",\"category\":\"x\",\"excerpt\":\"e\"\x7d]"

/-- The one-element RAG source array carried by the marker line above. -/
def c4MarkerArray : List Json :=
  [ Json.obj
      [ ("id", .str "a"), ("content", .str "c"), ("title", .str "t")
      , ("category", .str "x"), ("excerpt", .str "e") ] ]

/-- A shell state holding a previous RAG-source list. -/
def c4PriorState : ShellToolState :=
  { groundingFiles := []
  , enhancedGrounding := none
  , isGroundingVisible := false
  , callHistoryMetadata := none
  , isCallHistoryVisible := false
  , ragSources := [.str "previous-source"] }

/-! ## Claim C9 -/

/-- C9: a `sendMessage` call of the audio-augmented chat session whose
message is empty or whitespace-only, or that arrives while the loading flag
is set, returns null immediately, issues no network request, and leaves the
message list, both flags and all most-recent-audio fields unchanged (the
result is the unchanged state with no request, no return value and no
delegate invocations). -/
theorem C9_sendMessage_guard (st : AudioChatState) (message : String)
    (generateAudio : Bool) (voice : String) (now : Nat) (outcome : FetchOutcome)
    (h : jsTrim message = "" ∨ st.isLoading = true) :
    sendMessageWithAudio st message generateAudio voice now outcome = { state := st } := by
  unfold sendMessageWithAudio
  rw [if_pos h]

theorem C9_sendMessage_guard_witness :
    (jsTrim " \t " = "" ∨ (AudioChatState.isLoading { }) = true) ∧
    sendMessageWithAudio { } " \t " true "alloy" 0 (.success { message := "hi" }) =
      { state := { } } :=
  ⟨Or.inl (by decide),
   C9_sendMessage_guard { } " \t " true "alloy" 0 (.success { message := "hi" })
     (Or.inl (by decide))⟩

/-! ## Claim C1 -/

/-- C1: on a chat response with `error = "content_safety_violation"` or
`error_type = "content_filter"`, the audio-augmented session invokes the
content-safety delegate with the response message (default sentence when
empty) and the reason/action/documentation fields of the `details`
sub-object, appends no chat message in reaction to the response (the list
gains only the optimistic user message appended before the request), and
returns null; on any other non-empty `error` string it appends a synthetic
assistant message embedding the failure reason and does not invoke the
content-safety delegate. -/
theorem C1_content_safety_short_circuit (st : AudioChatState) (message : String)
    (generateAudio : Bool) (voice : String) (now : Nat) (data : ChatApiResponse)
    (hmsg : jsTrim message ≠ "") (hload : st.isLoading = false) :
    ((data.error = some "content_safety_violation" ∨ data.error_type = some "content_filter") →
      (sendMessageWithAudio st message generateAudio voice now (.success data)).contentSafetyCalls =
        [ { message := if data.message ≠ "" then data.message else "Contenu non autorisé détecté"
          , reason := data.details.bind ChatDetails.reason
          , action := data.details.bind ChatDetails.action
          , documentation := data.details.bind ChatDetails.documentation } ] ∧
      (sendMessageWithAudio st message generateAudio voice now (.success data)).state.messages =
        st.messages ++ [{ role := .user, content := jsTrim message, timestamp := now }] ∧
      (sendMessageWithAudio st message generateAudio voice now (.success data)).returnValue = none ∧
      (sendMessageWithAudio st message generateAudio voice now (.success data)).errorCalls = []) ∧
    (¬(data.error = some "content_safety_violation" ∨ data.error_type = some "content_filter") →
      strTruthy data.error = true →
      (sendMessageWithAudio st message generateAudio voice now (.success data)).state.messages =
        st.messages ++
          [ { role := .user, content := jsTrim message, timestamp := now }
          , { role := .assistant
            , content := "Sorry, I encountered an error: " ++ data.error.getD ""
            , timestamp := now } ] ∧
      (sendMessageWithAudio st message generateAudio voice now (.success data)).contentSafetyCalls = [] ∧
      (sendMessageWithAudio st message generateAudio voice now (.success data)).returnValue = none) := by
  constructor
  · intro hsafe
    simp [sendMessageWithAudio, hmsg, hload, hsafe]
  · intro hsafe herr
    simp [sendMessageWithAudio, audioChatErrorPath, hmsg, hload, hsafe, herr]

theorem C1_content_safety_short_circuit_witness :
    (sendMessageWithAudio { } "Question interdite" true "alloy" 0
        (.success
          { message := "Demande bloquée"
          , error_type := some "content_filter"
          , details := some { reason := some "violence", action := some "reformuler"
                            , documentation := some "https://aka.ms/acs" } })).contentSafetyCalls =
      [ { message := "Demande bloquée", reason := some "violence"
        , action := some "reformuler", documentation := some "https://aka.ms/acs" } ] ∧
    (sendMessageWithAudio { } "Question interdite" true "alloy" 0
        (.success
          { message := "Demande bloquée"
          , error_type := some "content_filter"
          , details := some { reason := some "violence", action := some "reformuler"
                            , documentation := some "https://aka.ms/acs" } })).state.messages =
      [{ role := .user, content := "Question interdite", timestamp := 0 }] := by
  have h := C1_content_safety_short_circuit { } "Question interdite" true "alloy" 0
    { message := "Demande bloquée"
    , error_type := some "content_filter"
    , details := some { reason := some "violence", action := some "reformuler"
                      , documentation := some "https://aka.ms/acs" } }
    (by decide) rfl
  have h2 := h.1 (Or.inr rfl)
  refine ⟨h2.1.trans (by decide), h2.2.1.trans (by decide)⟩

/-! ## Claim C2 -/

/-- C2 (code evaluation): three successful exchanges from an empty list.
Through the audio-augmented session the fourth call's `history` body field
has exactly the six `{role, content}` pairs in chronological order; through
the plain session, whose success updater appends the user message a second
time after the optimistic append, the fourth call's history has nine
entries, each user turn duplicated — contradicting the claim's "appends the
user message exactly once". -/
theorem C2_fourth_call_history :
    ((sendMessageWithAudio
        (sendMessageWithAudio
          (sendMessageWithAudio
            (sendMessageWithAudio { } "Q1" true "alloy" 0 (.success { message := "R1" })).state
            "Q2" true "alloy" 1 (.success { message := "R2" })).state
          "Q3" true "alloy" 2 (.success { message := "R3" })).state
        "Q4" true "alloy" 3 (.success { message := "R4" })).request.map ChatRequest.history =
      some
        [ { role := .user, content := "Q1" }, { role := .assistant, content := "R1" }
        , { role := .user, content := "Q2" }, { role := .assistant, content := "R2" }
        , { role := .user, content := "Q3" }, { role := .assistant, content := "R3" } ]) ∧
    ((sendMessagePlain
        (sendMessagePlain
          (sendMessagePlain
            (sendMessagePlain { } "Q1" 0 (.success { message := "R1" })).state
            "Q2" 1 (.success { message := "R2" })).state
          "Q3" 2 (.success { message := "R3" })).state
        "Q4" 3 (.success { message := "R4" })).request.map ChatRequest.history =
      some
        [ { role := .user, content := "Q1" }, { role := .user, content := "Q1" }
        , { role := .assistant, content := "R1" }
        , { role := .user, content := "Q2" }, { role := .user, content := "Q2" }
        , { role := .assistant, content := "R2" }
        , { role := .user, content := "Q3" }, { role := .user, content := "Q3" }
        , { role := .assistant, content := "R3" } ]) := by
  decide

/-! ## Claim C3 -/

/-- C3 (counterexample): with completed list `["a", "b"]` and in-flight
transcript `"a"`, the transcript is non-empty and differs from the most
recent entry `"b"`, so the claim requires it to be committed; the handler
does not commit it, because it is already present earlier in the list. -/
theorem C3_counterexample :
    onReceivedResponseDone ["a", "b"] "a" = (["a", "b"], "") ∧
    ("a" : String) ≠ "" ∧
    (["a", "b"] : List String).getLast? = some "b" ∧ ("a" : String) ≠ "b" ∧
    onReceivedResponseDone ["a", "b"] "a" ≠ (["a", "b", "a"], "") := by
  decide

/-- C3 (amended): on `response.done` the in-flight assistant transcript is
committed if and only if it is non-empty and not already present anywhere in
the completed list (not merely distinct from the most recent entry); the
in-flight value is cleared in every case, and the previously completed
entries are preserved as a prefix. -/
theorem C3_response_done_commit (completed : List String) (current : String) :
    ((onReceivedResponseDone completed current).1 = completed ++ [current] ↔
      current ≠ "" ∧ current ∉ completed) ∧
    (¬(current ≠ "" ∧ current ∉ completed) →
      (onReceivedResponseDone completed current).1 = completed) ∧
    (onReceivedResponseDone completed current).2 = "" ∧
    (∃ extra, (onReceivedResponseDone completed current).1 = completed ++ extra) := by
  by_cases h : current ≠ "" ∧ current ∉ completed
  · refine ⟨?_, fun hc => absurd h hc, rfl, ⟨[current], ?_⟩⟩ <;>
      simp [onReceivedResponseDone, h]
  · refine ⟨?_, fun _ => ?_, rfl, ⟨[], ?_⟩⟩ <;>
      simp [onReceivedResponseDone, h]

theorem C3_response_done_commit_witness :
    (onReceivedResponseDone ["x"] "y").1 = ["x"] ++ ["y"] ∧
    (onReceivedResponseDone ["x", "y"] "y").1 = ["x", "y"] :=
  ⟨(C3_response_done_commit ["x"] "y").1.mpr ⟨by decide, by decide⟩,
   (C3_response_done_commit ["x", "y"] "y").2.1 (by simp)⟩

/-! ## Claim C5 -/

/-- C5 (counterexample): a persisted text-voice value outside the ten-voice
catalogue is adopted as-is on re-initialisation instead of falling back to
`alloy`. -/
theorem C5_counterexample :
    loadVoicePreference (some "robotic") = "robotic" ∧
    ("robotic" ∈ AVAILABLE_VOICE_IDS) = False ∧
    loadVoicePreference (some "robotic") ≠ DEFAULT_VOICE := by
  refine ⟨rfl, ?_, by decide⟩
  simp [AVAILABLE_VOICE_IDS]

/-- C5 (amended): updating the text voice to any catalogue identifier and
re-initialising from the persisted slot recovers exactly that identifier; an
absent or empty persisted value falls back to `alloy`; but any other
non-empty persisted value — including corrupted values outside the catalogue
— is adopted verbatim, with no validation. -/
theorem C5_voice_preference_roundtrip :
    (∀ v ∈ AVAILABLE_VOICE_IDS, loadVoicePreference (updateTextVoice v).2.1 = v) ∧
    loadVoicePreference none = DEFAULT_VOICE ∧
    loadVoicePreference (some "") = DEFAULT_VOICE ∧
    (∀ s : String, s ≠ "" → loadVoicePreference (some s) = s) := by
  refine ⟨?_, rfl, by decide, ?_⟩
  · intro v hv
    fin_cases hv <;> decide
  · intro s hs
    simp [loadVoicePreference, updateTextVoice, hs]

theorem C5_voice_preference_roundtrip_witness :
    loadVoicePreference (updateTextVoice "verse").2.1 = "verse" ∧
    loadVoicePreference (some "weird-voice") = "weird-voice" :=
  ⟨C5_voice_preference_roundtrip.1 "verse" (by decide),
   C5_voice_preference_roundtrip.2.2.2 "weird-voice" (by decide)⟩

/-! ## Claim C7 -/

/-- C7: the self-introduction detector reports `hasNameMention = true` with
deduplicated detections exactly `["sophie"]` on the first fixture utterance,
and `hasNameMention = false` with no detections on the second. -/
theorem C7_name_detector_fixtures :
    detectNameMentions "Bonjour, je m'appelle Sophie et j'ai une question" =
      { hasNameMention := true, detectedNames := ["sophie"] } ∧
    detectNameMentions "Je voudrais vérifier ma police d'assurance" =
      { hasNameMention := false, detectedNames := [] } := by
  decide

/-! ## Claim C8 -/

/-- C8 (counterexample): for a present duration of 2.5 seconds the detail
row renders `2500ms`, not seconds to two decimal places, and for the status
`pending` (none of completed/running/failed) it applies the same red error
classes as for `failed` instead of a neutral colour. -/
theorem C8_counterexample :
    toolCallDurationBadge (some (5 / 2)) = some "2500ms" ∧
    some "2500ms" ≠ some (jsToFixed2 (5 / 2) ++ "s") ∧
    jsToFixed2 (5 / 2) ++ "s" = "2.50s" ∧
    toolCallStatusClass "pending" = toolCallStatusClass "failed" ∧
    toolCallStatusClass "pending" ≠ getStatusColor "pending" := by
  have hne : ((5 : ℚ) / 2) ≠ 0 := by norm_num
  have hr1 : jsRound ((5 : ℚ) / 2 * 1000) = 2500 := by
    unfold jsRound; rw [Int.floor_eq_iff]; norm_num
  have hr2 : jsRound ((5 : ℚ) / 2 * 100) = 250 := by
    unfold jsRound; rw [Int.floor_eq_iff]; norm_num
  have hf2 : jsToFixed2 (5 / 2) = "2.50" := by
    simp only [jsToFixed2, hr2]
    decide
  refine ⟨?_, ?_, ?_, rfl, by decide⟩
  · simp only [toolCallDurationBadge, if_pos hne, jsToFixed0, hr1]
    decide
  · rw [hf2]; decide
  · rw [hf2]; decide

/-- C8 (amended): the tool-call detail row always renders a present non-zero
duration as whole milliseconds, regardless of magnitude, and colours every
status other than completed and running — unknown statuses included — with
the error classes; the below-one-second/two-decimal-seconds formatting and
the neutral fallback colour are implemented by the telemetry panel's
`formatDuration` and `getStatusColor`, used for its overview rows. -/
theorem C8_duration_and_status_formatting :
    (∀ d : ℚ, d ≠ 0 → toolCallDurationBadge (some d) = some (jsToFixed0 (d * 1000) ++ "ms")) ∧
    (∀ s : String, s ≠ "completed" → s ≠ "running" →
      toolCallStatusClass s = "bg-red-500/20 text-red-400") ∧
    (∀ d : ℚ, 1 ≤ d → formatDuration (some d) = jsToFixed2 d ++ "s") ∧
    (∀ d : ℚ, 0 < d → d < 1 → formatDuration (some d) = toString (jsRound (d * 1000)) ++ "ms") ∧
    (∀ s : String, s ≠ "completed" → s ≠ "running" → s ≠ "failed" →
      getStatusColor s = "text-gray-400") := by
  refine ⟨?_, ?_, ?_, ?_, ?_⟩
  · intro d hd
    simp [toolCallDurationBadge, hd]
  · intro s h1 h2
    simp [toolCallStatusClass, h1, h2]
  · intro d hd
    have h0 : ¬(d = 0) := by intro h; rw [h] at hd; norm_num at hd
    have h1 : ¬(d < 1) := by linarith
    simp [formatDuration, h0, h1]
  · intro d hd0 hd1
    have h0 : ¬(d = 0) := by linarith
    simp [formatDuration, h0, hd1]
  · intro s h1 h2 h3
    simp [getStatusColor, h1, h2, h3]

theorem C8_duration_and_status_formatting_witness :
    toolCallDurationBadge (some ((5 : ℚ) / 2)) = some "2500ms" ∧
    formatDuration (some ((5 : ℚ) / 2)) = "2.50s" ∧
    formatDuration (some ((1 : ℚ) / 2)) = "500ms" ∧
    getStatusColor "pending" = "text-gray-400" := by
  have hr1 : jsRound ((5 : ℚ) / 2 * 1000) = 2500 := by
    unfold jsRound; rw [Int.floor_eq_iff]; norm_num
  have hr2 : jsRound ((5 : ℚ) / 2 * 100) = 250 := by
    unfold jsRound; rw [Int.floor_eq_iff]; norm_num
  have hr3 : jsRound ((1 : ℚ) / 2 * 1000) = 500 := by
    unfold jsRound; rw [Int.floor_eq_iff]; norm_num
  refine ⟨?_, ?_, ?_,
    C8_duration_and_status_formatting.2.2.2.2 "pending" (by decide) (by decide) (by decide)⟩
  · have h := C8_duration_and_status_formatting.1 (5 / 2) (by norm_num)
    rw [h]
    simp only [jsToFixed0, hr1]
    decide
  · have h := C8_duration_and_status_formatting.2.2.1 (5 / 2) (by norm_num)
    rw [h]
    simp only [jsToFixed2, hr2]
    decide
  · have h := C8_duration_and_status_formatting.2.2.2.1 (1 / 2) (by norm_num) (by norm_num)
    rw [h, hr3]
    decide

/-! ## Claim C10 -/

/-- C10: the summary strip's most-recent call is `callHistory[0]` — the head
of the supplied list, with no date comparison — so an unordered list reports
the first element's date; an empty list yields zero totals, zero claim
calls, and the placeholder instead of a date. -/
theorem C10_last_contact_from_head (calls : List CallHistoryItem) :
    (getSummary calls).recentCall = calls.head? ∧
    (∀ c rest, calls = c :: rest → lastContactDisplay calls = .date c.date) ∧
    (calls = [] →
      (getSummary calls).totalCalls = 0 ∧ (getSummary calls).claimCalls = 0 ∧
      lastContactDisplay calls = .placeholder) := by
  cases calls with
  | nil =>
    exact ⟨rfl, fun c rest h => List.noConfusion h, fun _ => ⟨rfl, rfl, rfl⟩⟩
  | cons c rest =>
    refine ⟨by simp [getSummary], fun c0 rest0 h => ?_, fun h => List.noConfusion h⟩
    obtain ⟨rfl, rfl⟩ := List.cons.inj h
    simp [lastContactDisplay, getSummary]

theorem C10_last_contact_from_head_witness :
    lastContactDisplay
      [ { date := "2023-01-01", type := "Réclamation", reason := "sinistre", outcome := "ouvert" }
      , { date := "2024-05-05", type := "Information", reason := "question", outcome := "résolu" } ] =
      .date "2023-01-01" :=
  (C10_last_contact_from_head _).2.1 _ _ rfl

/-! ## Claim C4 -/

/-- C4 (code evaluation at the failing input): the raw tool-result string
carries a trailing `__METADATA__: <json array>` line — the marker regex
matches it and the capture parses as the expected one-element JSON array —
yet the handler leaves the whole shell state, in particular the prior
RAG-source list, unchanged: the marker line makes the raw string invalid
JSON, the outer `JSON.parse` throws before the extraction code is reached,
and the outer catch swallows the turn. -/
theorem C4_marker_extraction_unreachable :
    metadataMatch c4FailingInput.data =
      some "[\x7b\"id\":\"a\",\"content\":\"c\",\"title\":\"t\",\"category\":\"x\",\"excerpt\":\"e\"\x7d]".data ∧
    jsonParse "[\x7b\"id\":\"a\",\"content\":\"c\",\"title\":\"t\",\"category\":\"x\",\"excerpt\":\"e\"\x7d]" =
      some (.arr c4MarkerArray) ∧
    jsonParse c4FailingInput = none ∧
    onToolResponseMessage c4PriorState c4FailingInput = c4PriorState ∧
    c4PriorState.ragSources ≠ c4MarkerArray := by
  refine ⟨rfl, rfl, rfl, rfl, ?_⟩
  intro h
  simp [c4PriorState, c4MarkerArray] at h

/-! ## Claim C6: supporting lemmas about the body-class scanner -/

theorem leadsWith_iff (pat l : List Char) :
    leadsWith pat l = true ↔ ∃ t, l = pat ++ t := by
  induction pat generalizing l with
  | nil => simp [leadsWith]
  | cons p ps ih =>
    cases l with
    | nil => simp [leadsWith]
    | cons c cs =>
      simp only [leadsWith, Bool.and_eq_true, decide_eq_true_eq, ih, List.cons_append]
      constructor
      · rintro ⟨rfl, t, rfl⟩
        exact ⟨t, rfl⟩
      · rintro ⟨t, h⟩
        obtain ⟨rfl, rfl⟩ := List.cons.inj h
        exact ⟨rfl, t, rfl⟩

theorem themePat_no_ws : ∀ c ∈ themePat, isJsWs c = false := by decide

theorem containsSub_of_leadsWith {a pat : List Char} (hpat : pat ≠ [])
    (h : leadsWith pat a = true) : containsSub a pat = true := by
  cases a with
  | nil =>
    obtain ⟨t, ht⟩ := (leadsWith_iff _ _).mp h
    cases pat with
    | nil => exact absurd rfl hpat
    | cons p ps => exact List.noConfusion ht
  | cons c cs => simp [containsSub, h]

theorem leadsWith_append_of (pat l e : List Char) (h : leadsWith pat l = true) :
    leadsWith pat (l ++ e) = true := by
  obtain ⟨t, rfl⟩ := (leadsWith_iff _ _).mp h
  exact (leadsWith_iff _ _).mpr ⟨t ++ e, by rw [List.append_assoc]⟩

theorem containsSub_nil_pat (b : List Char) : containsSub b [] = true := by
  induction b with
  | nil => rfl
  | cons c cs ih => simp [containsSub, leadsWith]

theorem containsSub_append_left (a b pat : List Char) (h : containsSub a pat = true) :
    containsSub (a ++ b) pat = true := by
  induction a with
  | nil =>
    simp only [containsSub, List.isEmpty_iff] at h
    rw [h, List.nil_append]
    exact containsSub_nil_pat b
  | cons c cs ih =>
    simp only [containsSub, Bool.or_eq_true] at h ⊢
    rcases h with h | h
    · exact Or.inl (leadsWith_append_of pat _ b h)
    · exact Or.inr (ih h)

theorem containsSub_append_right (a b pat : List Char) (h : containsSub b pat = true) :
    containsSub (a ++ b) pat = true := by
  induction a with
  | nil => exact h
  | cons c cs ih =>
    simp only [List.cons_append, containsSub, Bool.or_eq_true]
    exact Or.inr ih

theorem containsSub_of_middle {base p x q pat : List Char} (hb : base = p ++ x ++ q)
    (hx : containsSub x pat = true) : containsSub base pat = true := by
  subst hb
  rw [List.append_assoc]
  exact containsSub_append_right _ _ _ (containsSub_append_left _ _ _ hx)

theorem leadsWith_append_ws_false (a b : List Char)
    (ha : containsSub a themePat = false)
    (hb : ∀ c, b.head? = some c → isJsWs c = true) :
    leadsWith themePat (a ++ b) = false := by
  by_contra hcon
  rw [Bool.not_eq_false] at hcon
  obtain ⟨t, ht⟩ := (leadsWith_iff _ _).mp hcon
  by_cases hlen : 6 ≤ a.length
  · have htake : a.take 6 ++ b.take (6 - a.length) = themePat := by
      have h1 := congrArg (List.take 6) ht
      rw [List.take_append_eq_append_take, List.take_append_eq_append_take] at h1
      have h2 : themePat.length = 6 := by decide
      rw [h2] at h1
      simpa [List.take_of_length_le (le_of_eq h2)] using h1
    have hz : 6 - a.length = 0 := by omega
    rw [hz, List.take_zero, List.append_nil] at htake
    have hlead : leadsWith themePat a = true := by
      refine (leadsWith_iff _ _).mpr ⟨a.drop 6, ?_⟩
      rw [← htake, List.take_append_drop]
    have := containsSub_of_leadsWith (by decide) hlead
    rw [ha] at this
    exact Bool.noConfusion this
  · push_neg at hlen
    cases hbv : b with
    | nil =>
      rw [hbv, List.append_nil] at ht
      have h6 : 6 ≤ a.length := by
        rw [ht, List.length_append]
        have : themePat.length = 6 := by decide
        omega
      omega
    | cons x xs =>
      have htake : a ++ (x :: xs).take (6 - a.length) = themePat := by
        have h1 := congrArg (List.take 6) ht
        rw [hbv, List.take_append_eq_append_take, List.take_append_eq_append_take] at h1
        have h2 : themePat.length = 6 := by decide
        rw [h2] at h1
        rw [List.take_of_length_le (le_of_lt hlen)] at h1
        simpa [List.take_of_length_le (le_of_eq h2)] using h1
      have hxmem : x ∈ themePat := by
        rw [← htake]
        have h61 : 6 - a.length = (6 - a.length - 1) + 1 := by omega
        rw [h61, List.take_succ_cons]
        simp
      have h1 := themePat_no_ws x hxmem
      have h2 := hb x (by rw [hbv]; rfl)
      rw [h1] at h2
      exact Bool.noConfusion h2

theorem containsSub_false_split {a b pat : List Char}
    (h : containsSub (a ++ b) pat = false) :
    containsSub a pat = false ∧ containsSub b pat = false := by
  constructor
  · cases hc : containsSub a pat with
    | false => rfl
    | true => rw [containsSub_append_left a b pat hc] at h; exact Bool.noConfusion h
  · cases hc : containsSub b pat with
    | false => rfl
    | true => rw [containsSub_append_right a b pat hc] at h; exact Bool.noConfusion h

theorem removeThemeAux_append_ws (a b : List Char)
    (ha : containsSub a themePat = false)
    (hb : ∀ c, b.head? = some c → isJsWs c = true) :
    removeThemeAux (a ++ b) 0 = a ++ removeThemeAux b 0 := by
  induction a with
  | nil => rfl
  | cons c cs ih =>
    have hsplit : containsSub (c :: cs) themePat = false := ha
    simp only [containsSub, Bool.or_eq_false_iff] at hsplit
    have hlead : leadsWith themePat ((c :: cs) ++ b) = false :=
      leadsWith_append_ws_false (c :: cs) b ha hb
    rw [List.cons_append]
    show removeThemeAux (c :: (cs ++ b)) 0 = c :: (cs ++ removeThemeAux b 0)
    rw [removeThemeAux]
    rw [if_neg (by rw [← List.cons_append, hlead]; simp)]
    rw [ih hsplit.2]

theorem leadsWith_ws_head_false (w : Char) (r : List Char) (hw : isJsWs w = true) :
    leadsWith themePat (w :: r) = false := by
  have hne : ('t' = w) = False := by
    simp only [eq_iff_iff, iff_false]
    intro h
    rw [← h] at hw
    exact Bool.noConfusion hw
  simp [themePat, leadsWith, hne]

theorem removeThemeAux_ws_leading (sep b : List Char)
    (hsep : ∀ c ∈ sep, isJsWs c = true) :
    removeThemeAux (sep ++ b) 0 = sep ++ removeThemeAux b 0 := by
  induction sep with
  | nil => rfl
  | cons w sep' ih =>
    have hw : isJsWs w = true := hsep w (List.mem_cons_self w sep')
    rw [List.cons_append]
    show removeThemeAux (w :: (sep' ++ b)) 0 = w :: (sep' ++ removeThemeAux b 0)
    rw [removeThemeAux]
    rw [if_neg (by rw [leadsWith_ws_head_false w _ hw]; simp)]
    rw [ih (fun c hc => hsep c (List.mem_cons_of_mem w hc))]

theorem removeThemeAux_tok (t : Theme) : removeThemeAux (themeTok t) 0 = [] := by
  cases t <;> decide

theorem removeThemeAux_self (a : List Char) (ha : containsSub a themePat = false) :
    removeThemeAux a 0 = a := by
  have h := removeThemeAux_append_ws a [] ha (fun c hc => Option.noConfusion hc)
  rw [List.append_nil] at h
  rw [h, show removeThemeAux ([] : List Char) 0 = [] from rfl, List.append_nil]

theorem containsSub_append_ws_false (base sep : List Char)
    (hbase : containsSub base themePat = false)
    (hsep : ∀ c ∈ sep, isJsWs c = true) :
    containsSub (base ++ sep) themePat = false := by
  induction base with
  | nil =>
    rw [List.nil_append]
    induction sep with
    | nil => decide
    | cons w sep' ih =>
      simp only [containsSub, Bool.or_eq_false_iff]
      exact ⟨leadsWith_ws_head_false w _ (hsep w (List.mem_cons_self w sep')),
        ih (fun c hc => hsep c (List.mem_cons_of_mem w hc))⟩
  | cons c cs ih =>
    have hsplit : containsSub (c :: cs) themePat = false := hbase
    simp only [containsSub, Bool.or_eq_false_iff] at hsplit
    rw [List.cons_append]
    simp only [containsSub, Bool.or_eq_false_iff]
    refine ⟨?_, ih hsplit.2⟩
    rw [← List.cons_append]
    refine leadsWith_append_ws_false (c :: cs) sep hbase ?_
    intro x hx
    cases sep with
    | nil => exact Option.noConfusion hx
    | cons s ss =>
      have hsx : s = x := Option.some.inj hx
      rw [← hsx]
      exact hsep s (List.mem_cons_self s ss)

theorem dropWhile_head_not (p : Char → Bool) (l : List Char) (c : Char) (cs : List Char)
    (h : l.dropWhile p = c :: cs) : p c = false := by
  induction l with
  | nil => exact List.noConfusion h
  | cons x xs ih =>
    rw [List.dropWhile] at h
    cases hp : p x with
    | true => rw [hp] at h; exact ih h
    | false =>
      rw [hp] at h
      obtain ⟨rfl, _⟩ := List.cons.inj h
      exact hp

theorem dropWhile_cons_not (p : Char → Bool) (c : Char) (cs : List Char) (h : p c = false) :
    (c :: cs).dropWhile p = c :: cs := by
  rw [List.dropWhile, h]

theorem dropWhile_ws_append (sep b : List Char) (hsep : ∀ c ∈ sep, isJsWs c = true) :
    (sep ++ b).dropWhile isJsWs = b.dropWhile isJsWs := by
  induction sep with
  | nil => rfl
  | cons w sep' ih =>
    rw [List.cons_append, List.dropWhile, hsep w (List.mem_cons_self w sep')]
    exact ih (fun c hc => hsep c (List.mem_cons_of_mem w hc))

theorem jsTrimR_last_not_ws (l : List Char) (d : Char) (hd : isJsWs d = false) :
    jsTrimR (l ++ [d]) = l ++ [d] := by
  unfold jsTrimR
  rw [List.reverse_append]
  show ((([d] : List Char).reverse ++ l.reverse).dropWhile isJsWs).reverse = l ++ [d]
  rw [List.reverse_singleton]
  rw [show ([d] ++ l.reverse : List Char) = d :: l.reverse from rfl]
  rw [dropWhile_cons_not _ _ _ hd]
  rw [List.reverse_cons, List.reverse_reverse]

theorem themeTok_head (t : Theme) : ∃ cs, themeTok t = 't' :: cs := by
  cases t
  · exact ⟨"heme-glass".data, by decide⟩
  · exact ⟨"heme-white".data, by decide⟩
  · exact ⟨"heme-black".data, by decide⟩

theorem themeTok_last (t : Theme) : ∃ l d, themeTok t = l ++ [d] ∧ isJsWs d = false := by
  cases t
  · exact ⟨"theme-glas".data, 's', by decide, by decide⟩
  · exact ⟨"theme-whit".data, 'e', by decide, by decide⟩
  · exact ⟨"theme-blac".data, 'k', by decide, by decide⟩

theorem themeCore_inv (W : List Char) (u : Theme)
    (hW : containsSub W themePat = false) :
    ThemeBodyInv u (jsTrimList (W ++ (' ' :: themeTok u))) := by
  have hsplitW := List.takeWhile_append_dropWhile isJsWs W
  have htws : ∀ c ∈ W.takeWhile isJsWs, isJsWs c = true := fun c hc => List.mem_takeWhile_imp hc
  unfold jsTrimList jsTrimL
  rw [← hsplitW, List.append_assoc, dropWhile_ws_append _ _ htws]
  cases hD : W.dropWhile isJsWs with
  | nil =>
    rw [List.nil_append]
    obtain ⟨tokTl, htok⟩ := themeTok_head u
    rw [List.dropWhile, show isJsWs ' ' = true from rfl, htok, dropWhile_cons_not _ _ _ (by decide)]
    rw [← htok]
    obtain ⟨lInit, d, hdecomp, hdws⟩ := themeTok_last u
    rw [hdecomp, jsTrimR_last_not_ws _ _ hdws, ← hdecomp]
    exact Or.inl rfl
  | cons c cs =>
    have hc : isJsWs c = false := dropWhile_head_not _ _ _ _ hD
    rw [show ((c :: cs) ++ (' ' :: themeTok u)).dropWhile isJsWs =
          (c :: cs) ++ (' ' :: themeTok u) from
        dropWhile_cons_not _ _ _ hc]
    obtain ⟨lInit, d, hdecomp, hdws⟩ := themeTok_last u
    have hassoc : (c :: cs) ++ (' ' :: themeTok u) =
        ((c :: cs) ++ (' ' :: lInit)) ++ [d] := by
      rw [hdecomp]
      simp [List.append_assoc]
    rw [hassoc, jsTrimR_last_not_ws _ _ hdws, ← hassoc]
    refine Or.inr ⟨c :: cs, [' '], ?_, ⟨c, cs, rfl, hc⟩, by simp, ?_, rfl⟩
    · have : containsSub (W.takeWhile isJsWs ++ (c :: cs)) themePat = false := by
        rw [← hD, hsplitW]; exact hW
      exact (containsSub_false_split this).2
    · intro x hx
      simp only [List.mem_singleton] at hx
      rw [hx]
      decide

theorem themeApply_raw_inv (B : List Char) (u : Theme)
    (hB : containsSub B themePat = false) :
    ThemeBodyInv u (applyThemeClass B u) := by
  unfold applyThemeClass removeTheme
  rw [removeThemeAux_self B hB]
  exact themeCore_inv B u hB

theorem themeApply_inv_preserve {t : Theme} {body : List Char} (u : Theme)
    (hinv : ThemeBodyInv t body) :
    ThemeBodyInv u (applyThemeClass body u) := by
  unfold applyThemeClass removeTheme
  rcases hinv with hbody | ⟨base, sep, hbase, hhead, hne, hws, hbody⟩
  · rw [hbody, removeThemeAux_tok t]
    exact themeCore_inv [] u (by decide)
  · rw [hbody]
    rw [removeThemeAux_append_ws base (sep ++ themeTok t) hbase ?hb]
    case hb =>
      intro x hx
      cases sep with
      | nil => exact absurd rfl hne
      | cons s ss =>
        have hsx : s = x := Option.some.inj hx
        rw [← hsx]
        exact hws s (List.mem_cons_self s ss)
    rw [removeThemeAux_ws_leading sep (themeTok t) hws, removeThemeAux_tok t, List.append_nil]
    exact themeCore_inv (base ++ sep) u (containsSub_append_ws_false base sep hbase hws)

theorem splitWsAux_append_ws (a : List Char) (w : Char) (r : List Char)
    (hw : isJsWs w = true) :
    ∀ acc, splitWsAux (a ++ w :: r) acc = splitWsAux a acc ++ splitWsAux r [] := by
  induction a with
  | nil =>
    intro acc
    rw [List.nil_append]
    cases hacc : acc.isEmpty with
    | true => simp [splitWsAux, hw, hacc]
    | false => simp [splitWsAux, hw, hacc]
  | cons c cs ih =>
    intro acc
    rw [List.cons_append]
    cases hc : isJsWs c with
    | true =>
      cases hacc : acc.isEmpty with
      | true => simp [splitWsAux, hc, hacc, ih]
      | false => simp [splitWsAux, hc, hacc, ih]
    | false => simp [splitWsAux, hc, ih]

theorem splitWsAux_ws_all (sep b : List Char) (hsep : ∀ c ∈ sep, isJsWs c = true) :
    splitWsAux (sep ++ b) [] = splitWsAux b [] := by
  induction sep with
  | nil => rfl
  | cons w sep' ih =>
    rw [List.cons_append]
    simp only [splitWsAux, hsep w (List.mem_cons_self w sep'), List.isEmpty_nil, if_true]
    exact ih (fun c hc => hsep c (List.mem_cons_of_mem w hc))

theorem splitWsAux_mem_decomp (l : List Char) :
    ∀ acc x, x ∈ splitWsAux l acc → ∃ p q, acc.reverse ++ l = p ++ x ++ q := by
  induction l with
  | nil =>
    intro acc x hx
    cases hacc : acc.isEmpty with
    | true => simp [splitWsAux, hacc] at hx
    | false =>
      simp only [splitWsAux, hacc, Bool.false_eq_true, if_false, List.mem_singleton] at hx
      exact ⟨[], [], by simp [hx]⟩
  | cons c cs ih =>
    intro acc x hx
    cases hc : isJsWs c with
    | true =>
      cases hacc : acc.isEmpty with
      | true =>
        simp only [splitWsAux, hc, hacc, if_true] at hx
        obtain ⟨p, q, hpq⟩ := ih [] x hx
        have hcs : cs = p ++ (x ++ q) := by simpa [List.append_assoc] using hpq
        exact ⟨acc.reverse ++ (c :: p), q, by rw [hcs]; simp [List.append_assoc]⟩
      | false =>
        simp only [splitWsAux, hc, hacc, Bool.false_eq_true, if_false, if_true,
          List.mem_cons] at hx
        rcases hx with rfl | hx2
        · exact ⟨[], c :: cs, by simp⟩
        · obtain ⟨p, q, hpq⟩ := ih [] x hx2
          have hcs : cs = p ++ (x ++ q) := by simpa [List.append_assoc] using hpq
          exact ⟨acc.reverse ++ (c :: p), q, by rw [hcs]; simp [List.append_assoc]⟩
    | false =>
      simp only [splitWsAux, hc, Bool.false_eq_true, if_false] at hx
      obtain ⟨p, q, hpq⟩ := ih (c :: acc) x hx
      refine ⟨p, q, ?_⟩
      rw [← hpq]
      simp

theorem classList_filter_no_theme (base : List Char)
    (hbase : containsSub base themePat = false) :
    (classList base).filter isThemeClassTok = [] := by
  rw [List.filter_eq_nil_iff]
  intro x hx
  intro htok
  obtain ⟨p, q, hpq⟩ := splitWsAux_mem_decomp base [] x hx
  rw [List.reverse_nil, List.nil_append] at hpq
  have hlead : leadsWith themePat x = true := by
    simp only [isThemeClassTok, Bool.and_eq_true] at htok
    exact htok.1
  have hcx : containsSub x themePat = true := containsSub_of_leadsWith (by decide) hlead
  have := containsSub_of_middle hpq hcx
  rw [hbase] at this
  exact Bool.noConfusion this

theorem splitWs_tok (t : Theme) : splitWs (themeTok t) = [themeTok t] := by
  cases t <;> decide

theorem isThemeClassTok_tok (t : Theme) : isThemeClassTok (themeTok t) = true := by
  cases t <;> decide

theorem themeInv_classList {t : Theme} {body : List Char} (hinv : ThemeBodyInv t body) :
    (classList body).filter isThemeClassTok = [themeTok t] := by
  rcases hinv with hbody | ⟨base, sep, hbase, _, hne, hws, hbody⟩
  · rw [hbody]
    show (splitWs (themeTok t)).filter isThemeClassTok = [themeTok t]
    rw [splitWs_tok t]
    simp [List.filter, isThemeClassTok_tok t]
  · rw [hbody]
    cases sep with
    | nil => exact absurd rfl hne
    | cons w sep' =>
      have hw : isJsWs w = true := hws w (List.mem_cons_self w sep')
      show (splitWsAux (base ++ ((w :: sep') ++ themeTok t)) []).filter isThemeClassTok =
        [themeTok t]
      rw [List.cons_append]
      rw [splitWsAux_append_ws base w (sep' ++ themeTok t) hw []]
      rw [splitWsAux_ws_all sep' (themeTok t) (fun c hc => hws c (List.mem_cons_of_mem w hc))]
      rw [List.filter_append]
      have hbf : (splitWsAux base []).filter isThemeClassTok = [] :=
        classList_filter_no_theme base hbase
      rw [hbf, List.nil_append]
      have htf : splitWsAux (themeTok t) [] = [themeTok t] := splitWs_tok t
      rw [htf]
      simp [List.filter, isThemeClassTok_tok t]

theorem toggleThemeOp_theme (st : ThemeState) :
    (toggleThemeOp st).theme = nextTheme st.theme := rfl

theorem toggleThemeOp_inv {st : ThemeState} (hinv : ThemeBodyInv st.theme st.body) :
    ThemeBodyInv (toggleThemeOp st).theme (toggleThemeOp st).body := by
  show ThemeBodyInv (nextTheme st.theme)
    (applyThemeClass (applyThemeClass st.body (nextTheme st.theme)) (nextTheme st.theme))
  exact themeApply_inv_preserve _ (themeApply_inv_preserve _ hinv)

/-! ## Claim C6 -/

/-- C6: starting from any theme `t` (as loaded from a persisted value) over
any initial body class string with no `theme-` occurrence, the cyclic toggle
follows the order glass, white, black, glass — three toggles return the
theme to `t` — and at the initial mount and after each toggle the document
body's class list contains exactly one class of the form `theme-<name>`,
whose name equals the current theme. -/
theorem C6_theme_cycle_and_body_class (t : Theme) (stored : Option String) (base : List Char)
    (ht : loadTheme stored = t) (hbase : containsSub base themePat = false) :
    nextTheme .glass = .white ∧ nextTheme .white = .black ∧ nextTheme .black = .glass ∧
    (themeAfterToggles stored base 0).theme = t ∧
    (themeAfterToggles stored base 3).theme = t ∧
    (∀ n ≤ 3, (classList (themeAfterToggles stored base n).body).filter isThemeClassTok =
      [themeTok (themeAfterToggles stored base n).theme]) ∧
    (∀ n ≤ 3, ∀ u,
      (classList (setThemeOp (themeAfterToggles stored base n) u).body).filter isThemeClassTok =
        [themeTok u]) := by
  have hmount : ThemeBodyInv (mountTheme stored base).theme (mountTheme stored base).body :=
    themeApply_raw_inv base (loadTheme stored) hbase
  have hinv : ∀ n, ThemeBodyInv (themeAfterToggles stored base n).theme
      (themeAfterToggles stored base n).body := by
    intro n
    induction n with
    | zero => exact hmount
    | succ k ihk =>
      rw [themeAfterToggles, Function.iterate_succ_apply']
      exact toggleThemeOp_inv ihk
  have htheme : ∀ n, (themeAfterToggles stored base n).theme = nextTheme^[n] t := by
    intro n
    induction n with
    | zero => exact ht
    | succ k ihk =>
      rw [themeAfterToggles, Function.iterate_succ_apply', Function.iterate_succ_apply',
        toggleThemeOp_theme, ← themeAfterToggles, ihk]
  refine ⟨rfl, rfl, rfl, htheme 0, ?_, fun n _ => themeInv_classList (hinv n),
    fun n _ u => ?_⟩
  · rw [htheme 3]
    cases t <;> rfl
  · exact themeInv_classList
      (themeApply_inv_preserve u (themeApply_inv_preserve u (hinv n)))

theorem C6_theme_cycle_and_body_class_witness :
    loadTheme (some "white") = Theme.white ∧
    containsSub "app dark".data themePat = false ∧
    (themeAfterToggles (some "white") "app dark".data 3).theme = Theme.white ∧
    (classList (themeAfterToggles (some "white") "app dark".data 2).body).filter
      isThemeClassTok =
      [themeTok (themeAfterToggles (some "white") "app dark".data 2).theme] ∧
    (classList (setThemeOp (themeAfterToggles (some "white") "app dark".data 1)
        Theme.black).body).filter isThemeClassTok = [themeTok Theme.black] := by
  have h := C6_theme_cycle_and_body_class Theme.white (some "white") "app dark".data
    rfl (by decide)
  exact ⟨rfl, by decide, h.2.2.2.2.1, h.2.2.2.2.2.1 2 (by decide),
    h.2.2.2.2.2.2 1 (by decide) Theme.black⟩

end VoiceRag
